import Mathlib

/-!
Verification of the resumable batch-extraction pipeline in
`text_processing_to_json.py` (BookNLP fine-tuning repository).

The file shallowly embeds the pipeline's pure core:
strings are Lean `String`s, Python `dict`s coming from JSON are
association lists in insertion order, Python sets are duplicate-free
lists, machine integers are `Int`/`Nat` (no overflow is possible on the
paths modelled), and Python exceptions on the modelled paths are made
explicit (`Option`, or an explicit abort flag where a `TypeError` can
escape to a broad `except`).

Python library calls that the source leans on (`json.loads`,
`json.dumps(..., ensure_ascii=False, indent=2)`, the two literal regular
expressions, `str.strip`, `str.lower`, `str.split`, substring `in`) are
embedded as executable Lean functions faithful to their behaviour on the
value space this program exercises (JSON with integer numbers; ASCII
case mapping; no `\uXXXX` escapes).  Each embedding notes its scope.
-/

namespace TextProc

/-- The apostrophe character (written via its code point). -/
def aposC : Char := Char.ofNat 39

/-- The apostrophe as a one-character string. -/
def aposS : String := String.mk [aposC]

/-- Opening brace character. -/
def lbrace : Char := Char.ofNat 123

/-- Closing brace character. -/
def rbrace : Char := Char.ofNat 125

/-- Python whitespace for `str.strip`/`str.split`:
space, tab, newline, carriage return, vertical tab, form feed. -/
def pyIsSpace (c : Char) : Bool :=
  c = ' ' || c = '\t' || c = '\n' || c = '\r' || c = Char.ofNat 11 || c = Char.ofNat 12

/-- Python `str.strip()` (no argument): drop whitespace at both ends. -/
def pyStrip (s : String) : String :=
  String.mk (((s.data.dropWhile pyIsSpace).reverse.dropWhile pyIsSpace).reverse)

/-- Python `str.rstrip()` (no argument): drop trailing whitespace. -/
def pyRstrip (s : String) : String :=
  String.mk ((s.data.reverse.dropWhile pyIsSpace).reverse)

/-- Python `str.rstrip(",")`: drop trailing comma characters. -/
def pyRstripComma (s : String) : String :=
  String.mk ((s.data.reverse.dropWhile (· = ',')).reverse)

/-- Python `str.lower()` on the ASCII range (the program's data is ASCII). -/
def pyLower (s : String) : String := String.mk (s.data.map Char.toLower)

/-- Python `str.split()` with no argument: split on whitespace runs,
dropping empty tokens.  Fuel-driven recursion on the character list. -/
def pySplitAux : Nat → List Char → List String
  | 0, _ => []
  | fuel + 1, cs =>
    match cs.dropWhile pyIsSpace with
    | [] => []
    | rest =>
      let tok := rest.takeWhile (fun c => ¬ pyIsSpace c)
      let r := rest.dropWhile (fun c => ¬ pyIsSpace c)
      String.mk tok :: pySplitAux fuel r

/-- Python `str.split()` (whitespace tokenisation). -/
def pySplit (s : String) : List String :=
  pySplitAux (s.length + 1) s.data

/-- Python substring test `sub in s`. -/
def pySubstr (sub s : String) : Bool :=
  decide (sub.data <:+: s.data)

/-- First character is an uppercase letter (`c[0].isupper()`, ASCII). -/
def headUpper (s : String) : Bool :=
  match s.data with
  | [] => false
  | c :: _ => c.isUpper

/-- Python set-insert on a list used as a set (insertion order kept). -/
def insertSet (l : List String) (c : String) : List String :=
  if c ∈ l then l else l ++ [c]

/-- Insert a list of names into a set-list in order. -/
def insertSetAll (l : List String) (cs : List String) : List String :=
  cs.foldl insertSet l

/-- Python set-insert for integer indices. -/
def insertSetI (l : List Int) (i : Int) : List Int :=
  if i ∈ l then l else l ++ [i]

/-- `sorted(list(m))[0]` when the set is non-empty: the lexicographic
minimum of the collected names (Python sorts strings by code point;
Lean's `<` on `String` is the same lexicographic order). -/
def pyMin (l : List String) : Option String :=
  match l with
  | [] => none
  | x :: xs => some (xs.foldl (fun a b => if b < a then b else a) x)

/-- Association-list update with Python `dict` semantics: replace the
value in place if the key exists, else append (insertion order kept). -/
def assocSet (l : List (String × String)) (k v : String) : List (String × String) :=
  if l.any (fun p => p.1 = k) then
    l.map (fun p => if p.1 = k then (k, v) else p)
  else l ++ [(k, v)]

/-- Lookup in an association list (first match; keys are unique). -/
def assocFind (l : List (String × String)) (k : String) : Option String :=
  (l.find? (fun p => p.1 = k)).map (·.2)

/-- JSON values as Python's `json` module produces them, with objects as
insertion-ordered association lists (duplicate keys collapsed at parse
time, exactly as a Python `dict` does) and integer numbers (the program
only ever produces and consumes integer `index` values; floats do not
occur on any modelled path). -/
inductive Json where
  | null : Json
  | bool : Bool → Json
  | num : Int → Json
  | str : String → Json
  | arr : List Json → Json
  | obj : List (String × Json) → Json

/-- Lookup in a parsed JSON object (Python `dict.get`): keys are unique
after parsing, so the first match is the binding. -/
def jGet (kvs : List (String × Json)) (k : String) : Option Json :=
  (kvs.find? (fun p => p.1 = k)).map (·.2)

/-- `dict` update used while parsing an object: a repeated key replaces
the value in place, a new key is appended. -/
def jSet (kvs : List (String × Json)) (k : String) (v : Json) : List (String × Json) :=
  if kvs.any (fun p => p.1 = k) then
    kvs.map (fun p => if p.1 = k then (k, v) else p)
  else kvs ++ [(k, v)]

/-- Python truthiness of a JSON-shaped value (`if x:`). -/
def pyTruthy : Json → Bool
  | Json.null => false
  | Json.bool b => b
  | Json.num n => n ≠ 0
  | Json.str s => s ≠ ""
  | Json.arr xs => ¬ xs.isEmpty
  | Json.obj kvs => ¬ kvs.isEmpty

/-- Python `repr` of a string: quote (single quote by default, double
quote when the text contains a single quote and no double quote) and
escape backslashes, the chosen quote, and the common control characters.
Only reached through `str()` coercions of malformed nested fields. -/
def pyReprStr (s : String) : String :=
  let q : Char := if s.data.contains aposC ∧ ¬ s.data.contains '"' then '"' else aposC
  let esc : Char → String := fun c =>
    if c = '\\' then "\\\\"
    else if c = q then String.mk ['\\', q]
    else if c = '\n' then "\\n"
    else if c = '\r' then "\\r"
    else if c = '\t' then "\\t"
    else String.mk [c]
  String.mk [q] ++ String.join (s.data.map esc) ++ String.mk [q]

mutual

/-- Python `repr` of a JSON-shaped value (used by `str()` on containers:
`str(list)`/`str(dict)` print the `repr`). -/
def pyRepr : Json → String
  | Json.null => "None"
  | Json.bool true => "True"
  | Json.bool false => "False"
  | Json.num n => toString n
  | Json.str s => pyReprStr s
  | Json.arr xs =>
    "[" ++ String.intercalate ", " (pyReprList xs) ++ "]"
  | Json.obj kvs =>
    String.mk [lbrace]
      ++ String.intercalate ", " (pyReprKvs kvs)
      ++ String.mk [rbrace]

/-- `repr` of the elements of a list. -/
def pyReprList : List Json → List String
  | [] => []
  | x :: xs => pyRepr x :: pyReprList xs

/-- `repr` of the entries of a dict. -/
def pyReprKvs : List (String × Json) → List String
  | [] => []
  | (k, v) :: xs => (pyReprStr k ++ ": " ++ pyRepr v) :: pyReprKvs xs

end

/-- Python `str()` of a JSON-shaped value: identity on strings, `repr`
style on everything else. -/
def pyStr : Json → String
  | Json.str s => s
  | v => pyRepr v

/-! ### `json.loads`

A recursive-descent parser for the JSON subset this program's data
lives in: objects, arrays, strings (with the standard one-character
escapes; `\uXXXX` is out of scope), integer numbers, `true`, `false`,
`null`.  It is strict exactly where Python's `json.loads` is strict on
this subset: unescaped control characters in strings are rejected,
trailing data after the top-level value is rejected, single quotes and
trailing commas are syntax errors.  `none` models a raised
`json.JSONDecodeError`. -/

/-- JSON inter-token whitespace. -/
def jsonWs (c : Char) : Bool := c = ' ' || c = '\t' || c = '\n' || c = '\r'

/-- Skip inter-token whitespace. -/
def skipWs (cs : List Char) : List Char := cs.dropWhile jsonWs

/-- Parse the remainder of a JSON string literal (after the opening
quote).  Returns the decoded text and the rest of the input. -/
def parseJStr : List Char → Option (String × List Char)
  | [] => none
  | c :: rest =>
    if c = '"' then some ("", rest)
    else if c = '\\' then
      match rest with
      | [] => none
      | e :: r2 =>
        let ec : Option Char :=
          if e = '"' then some '"'
          else if e = '\\' then some '\\'
          else if e = '/' then some '/'
          else if e = 'n' then some '\n'
          else if e = 't' then some '\t'
          else if e = 'r' then some '\r'
          else if e = 'b' then some (Char.ofNat 8)
          else if e = 'f' then some (Char.ofNat 12)
          else none
        match ec with
        | none => none
        | some d =>
          match parseJStr r2 with
          | none => none
          | some (s, r3) => some (String.mk (d :: s.data), r3)
    else if c.val < 32 then none
    else
      match parseJStr rest with
      | none => none
      | some (s, r3) => some (String.mk (c :: s.data), r3)

/-- Parse a run of decimal digits into a natural number. -/
def parseDigits (cs : List Char) : Option (Nat × List Char) :=
  let ds := cs.takeWhile Char.isDigit
  if ds.isEmpty then none
  else some (ds.foldl (fun a c => a * 10 + (c.toNat - 48)) 0, cs.dropWhile Char.isDigit)

/-- Parse an integer JSON number (optional minus sign, digits). -/
def parseJNum (cs : List Char) : Option (Int × List Char) :=
  match cs with
  | '-' :: rest =>
    match parseDigits rest with
    | none => none
    | some (n, r) => some (-(n : Int), r)
  | _ =>
    match parseDigits cs with
    | none => none
    | some (n, r) => some ((n : Int), r)

mutual

/-- Parse one JSON value (leading whitespace allowed); fuel bounds the
recursion depth and is ample for every input the program handles. -/
def parseJson : Nat → List Char → Option (Json × List Char)
  | 0, _ => none
  | fuel + 1, cs =>
    match skipWs cs with
    | [] => none
    | c :: rest =>
      if c = lbrace then
        match skipWs rest with
        | d :: r2 =>
          if d = rbrace then some (Json.obj [], r2)
          else parseJMembers fuel (skipWs rest) []
        | [] => none
      else if c = '[' then
        match skipWs rest with
        | ']' :: r2 => some (Json.arr [], r2)
        | _ => parseJElems fuel (skipWs rest) []
      else if c = '"' then
        match parseJStr rest with
        | none => none
        | some (s, r2) => some (Json.str s, r2)
      else if c = 't' then
        match rest with
        | 'r' :: 'u' :: 'e' :: r2 => some (Json.bool true, r2)
        | _ => none
      else if c = 'f' then
        match rest with
        | 'a' :: 'l' :: 's' :: 'e' :: r2 => some (Json.bool false, r2)
        | _ => none
      else if c = 'n' then
        match rest with
        | 'u' :: 'l' :: 'l' :: r2 => some (Json.null, r2)
        | _ => none
      else
        match parseJNum (c :: rest) with
        | none => none
        | some (n, r2) => some (Json.num n, r2)

/-- Parse the members of a JSON object, positioned at a key string. -/
def parseJMembers : Nat → List Char → List (String × Json) →
    Option (Json × List Char)
  | 0, _, _ => none
  | fuel + 1, cs, acc =>
    match cs with
    | '"' :: rest =>
      match parseJStr rest with
      | none => none
      | some (k, r2) =>
        match skipWs r2 with
        | ':' :: r3 =>
          match parseJson fuel r3 with
          | none => none
          | some (v, r4) =>
            match skipWs r4 with
            | ',' :: r5 => parseJMembers fuel (skipWs r5) (jSet acc k v)
            | d :: r5 =>
              if d = rbrace then some (Json.obj (jSet acc k v), r5) else none
            | [] => none
        | _ => none
    | _ => none

/-- Parse the elements of a JSON array, positioned at a value. -/
def parseJElems : Nat → List Char → List Json → Option (Json × List Char)
  | 0, _, _ => none
  | fuel + 1, cs, acc =>
    match parseJson fuel cs with
    | none => none
    | some (v, r2) =>
      match skipWs r2 with
      | ',' :: r3 => parseJElems fuel r3 (acc ++ [v])
      | ']' :: r3 => some (Json.arr (acc ++ [v]), r3)
      | _ => none

end

/-- `json.loads`: parse a full document; trailing non-whitespace data is
a decode error (`none`). -/
def jsonLoads (s : String) : Option Json :=
  match parseJson (2 * s.length + 4) s.data with
  | none => none
  | some (v, rest) => if (skipWs rest).isEmpty then some v else none

/-! ### `parse_response` — the fallback response parser -/

/-- `re.search(r'\[[\s\S]*\]', response, re.DOTALL)`: the leftmost
match of this greedy pattern runs from the first `[` in the string to
the last `]` after it (the character class crosses newlines). -/
def bracketSearch (s : String) : Option String :=
  let cs := s.data
  match cs.findIdx? (· = '['), cs.reverse.findIdx? (· = ']') with
  | some i, some jr =>
    let j := cs.length - 1 - jr
    if i < j then some (String.mk ((cs.drop i).take (j - i + 1))) else none
  | _, _ => none

/-- `json_text.replace("'", '"')`: turn every single quote into a double
quote. -/
def replaceQuotes (s : String) : String :=
  String.mk (s.data.map (fun c => if c = aposC then '"' else c))

/-- One left-to-right pass of `re.sub(r',(\s*[}\]])', r'\1', t)`:
a comma followed by optional whitespace and a closing brace or bracket
is deleted (the whitespace and closer are kept); scanning resumes after
the match.  `\s` here is the regex whitespace class. -/
def stripCommasAux : Nat → List Char → List Char
  | 0, cs => cs
  | _ + 1, [] => []
  | fuel + 1, c :: cs =>
    if c = ',' then
      let ws := cs.takeWhile pyIsSpace
      let rest := cs.dropWhile pyIsSpace
      match rest with
      | d :: r2 =>
        if d = rbrace ∨ d = ']' then ws ++ d :: stripCommasAux fuel r2
        else c :: stripCommasAux fuel cs
      | [] => c :: stripCommasAux fuel cs
    else c :: stripCommasAux fuel cs

/-- `re.sub(r',(\s*[}\]])', r'\1', t)` over a whole string. -/
def stripTrailingCommas (s : String) : String :=
  String.mk (stripCommasAux (s.length + 1) s.data)

/-- `parse_response`: try `json.loads` on the whole response (wrapping a
parsed dict in a one-element list); otherwise locate the bracketed
segment, normalise quotes, strip trailing commas and re-parse; on
total failure return the empty list.  A parsed non-dict value is
returned as-is, exactly as the source does. -/
def parse_response (response : String) : Json :=
  if response = "" then Json.arr []
  else
    match jsonLoads response with
    | some (Json.obj kvs) => Json.arr [Json.obj kvs]
    | some v => v
    | none =>
      match bracketSearch response with
      | none => Json.arr []
      | some seg =>
        let t := stripTrailingCommas (replaceQuotes seg)
        match jsonLoads t with
        | some v => v
        | none => Json.arr []

/-! ### `clean_and_validate` — the Validator/Normalizer -/

/-- The fixed pronoun set of `clean_and_validate`. -/
def PRONOUNS : List String :=
  ["i", "me", "my", "mine", "he", "she", "it", "they", "his", "her", "its",
   "their", "him", "them", "we", "us", "our"]

/-- The fixed body-part exclusion set. -/
def BODY_PARTS : List String :=
  ["head", "heads", "hand", "hands", "eye", "eyes", "arm", "arms", "leg", "legs",
   "body", "bodies", "finger", "fingers", "palm", "palms", "brain", "brains",
   "temple", "temples", "back", "limbs", "gaze", "vision", "face", "chest"]

/-- The fixed abstract-noun exclusion set. -/
def ABSTRACT : List String :=
  ["pain", "thought", "thoughts", "mind", "minds", "strength", "confusion",
   "darkness", "sleep", "death", "work", "time", "focus", "memory", "feeling"]

/-- `EXCLUDED = PRONOUNS | BODY_PARTS | ABSTRACT`. -/
def EXCLUDED : List String := PRONOUNS ++ BODY_PARTS ++ ABSTRACT

/-- The canonical validated record the pipeline persists. -/
structure Record where
  index : Int
  text : String
  characters : List String
  entities : List String
  coref : List (String × String)
  speaker : String
deriving DecidableEq

/-- Coerce a JSON field to a string the way the `characters`/`entities`
loops do: keep a string, `str()` anything else, skip `None`. -/
def coerceStr : Json → Option String
  | Json.null => none
  | Json.str s => some s
  | v => some (pyStr v)

/-- Text recovery for one raw record: coerce `obj.get("text", "")` to a
string (joining the `str()` of truthy items when it is a list), strip
it, and fall back to the batch's original sentence when empty. -/
def entryText (originals : List String) (i : Nat) (kvs : List (String × Json)) : String :=
  let t0 : String :=
    match jGet kvs "text" with
    | none => ""
    | some (Json.str s) => s
    | some (Json.arr xs) =>
      String.intercalate " " ((xs.filter pyTruthy).map pyStr)
    | some Json.null => ""
    | some v => pyStr v
  let t := pyStrip t0
  if t = "" then
    match originals.get? i with
    | some f => pyStrip f
    | none => ""
  else t

/-- One step of the character-filtering loop: keep a candidate that is
non-empty, longer than one character, starts with an uppercase letter,
is not a pronoun, and occurs literally in the record's text. -/
def charStep (text : String) (acc : List String) (cj : Json) : List String :=
  match coerceStr cj with
  | none => acc
  | some c0 =>
    let c := pyStrip c0
    if c ≠ "" ∧ c.length > 1 ∧ headUpper c = true ∧ pyLower c ∉ PRONOUNS
        ∧ pySubstr c text = true then
      acc ++ [c]
    else acc

/-- Character filtering (in source order, duplicates kept). -/
def entryValidChars (text : String) (kvs : List (String × Json)) : List String :=
  match jGet kvs "characters" with
  | some (Json.arr xs) => xs.foldl (charStep text) []
  | _ => []

/-- One step of the entity-filtering loop: drop candidates in the
exclusion set. -/
def entityStep (acc : List String) (ej : Json) : List String :=
  match coerceStr ej with
  | none => acc
  | some e0 =>
    let e := pyStrip e0
    if e ≠ "" ∧ pyLower e ∉ EXCLUDED then acc ++ [e] else acc

/-- Entity filtering, then appending every accepted character not
already present. -/
def entryEntities (validChars : List String) (kvs : List (String × Json)) : List String :=
  let base : List String :=
    match jGet kvs "entities" with
    | some (Json.arr xs) => xs.foldl entityStep []
    | _ => []
  validChars.foldl (fun acc c => if c ∈ acc then acc else acc ++ [c]) base

/-- Referent coercion in the coref loop: keep a string; for a non-empty
list take the `str()` of its first truthy item (else the empty string);
`str()` other non-`None` values; skip `None`. -/
def corefReferent : Json → Option String
  | Json.str s => some s
  | Json.arr [] => some (pyStr (Json.arr []))
  | Json.arr xs =>
    some (match xs.find? pyTruthy with
          | some r => pyStr r
          | none => "")
  | Json.null => none
  | v => some (pyStr v)

/-- Remove every `[` and `]` from the referent (`re.sub(r'[\[\]]', ...)`). -/
def stripBrackets (s : String) : String :=
  String.mk (s.data.filter (fun c => c ≠ '[' ∧ c ≠ ']'))

/-- One step of the coreference-filtering loop: repair both sides,
lowercase the pronoun, strip brackets from the referent, and keep the
pair only if the referent is not a pronoun, differs
(case-insensitively) from its key, is longer than one character and
starts uppercase.  Insertion mirrors `fixed_coref[pronoun] = referent`. -/
def corefStep (acc : List (String × String)) (pr : String × Json) :
    List (String × String) :=
  match corefReferent pr.2 with
  | none => acc
  | some ref0 =>
    let ref1 := pyStrip ref0
    if ref1 = "" then acc
    else
      let p := pyLower (pyStrip pr.1)
      if p = "" then acc
      else
        let ref := pyStrip (stripBrackets ref1)
        if p = pyLower ref ∨ pyLower ref ∈ PRONOUNS then acc
        else if ref.length > 1 ∧ headUpper ref = true then assocSet acc p ref
        else acc

/-- Coreference filtering over `obj.get("coref", {})`. -/
def entryCoref (kvs : List (String × Json)) : List (String × String) :=
  match jGet kvs "coref" with
  | some (Json.obj cs) => cs.foldl corefStep []
  | _ => []

/-- Speaker coercion: `obj.get("speaker", "Narrator")` repaired to a
string and stripped. -/
def entrySpeaker0 (kvs : List (String × Json)) : String :=
  let s0 : String :=
    match jGet kvs "speaker" with
    | none => "Narrator"
    | some (Json.str s) => s
    | some (Json.arr []) => pyStr (Json.arr [])
    | some (Json.arr (x :: _)) => if pyTruthy x then pyStr x else "Narrator"
    | some Json.null => "Narrator"
    | some v => pyStr v
  pyStrip s0

/-- The first-person token set probed in the lowercased, whitespace-split
text. -/
def fpTokens : List String :=
  ["i", "my", "me", "i" ++ aposS ++ "m", "i" ++ aposS ++ "ve", "i" ++ aposS ++ "d"]

/-- `has_first_person`: some first-person token occurs among the
whitespace tokens of the lowercased text. -/
def entryHasFP (toks : List String) : Bool :=
  fpTokens.any (· ∈ toks)

/-- The point-of-view resolution step (source lines 257–270): when the
text is first-person and the current speaker is missing, "Narrator" or a
pronoun, pick the record's first accepted character, else the
lexicographically first context name (`pov_char_fallback or
"Unknown Character"`), and on success set the speaker and backfill
missing `i`/`my`/`me` coref entries. -/
def resolveSpeakerCoref (pov : Option String) (validChars : List String)
    (sp0 : String) (fc0 : List (String × String)) (toks : List String) :
    String × List (String × String) :=
  if entryHasFP toks = true ∧ (sp0 = "Narrator" ∨ sp0 = "" ∨ pyLower sp0 ∈ PRONOUNS) then
    let cur0 : String :=
      match pov with
      | some f => if f = "" then "Unknown Character" else f
      | none => "Unknown Character"
    let cur : String :=
      match validChars with
      | c :: _ => c
      | [] => cur0
    if cur = "Unknown Character" then (sp0, fc0)
    else
      let f1 := if "i" ∈ toks ∧ assocFind fc0 "i" = none then assocSet fc0 "i" cur else fc0
      let f2 := if "my" ∈ toks ∧ assocFind f1 "my" = none then assocSet f1 "my" cur else f1
      let f3 := if "me" ∈ toks ∧ assocFind f2 "me" = none then assocSet f2 "me" cur else f2
      (cur, f3)
  else (sp0, fc0)

/-- The final speaker collapse: an empty or pronoun speaker becomes
"Narrator". -/
def finalizeSpeaker (s : String) : String :=
  if s = "" ∨ pyLower s ∈ PRONOUNS then "Narrator" else s

/-- The record built for one raw dict entry that survived text recovery. -/
def entryRecord (pov : Option String) (originals : List String) (base : Int)
    (i : Nat) (kvs : List (String × Json)) : Record :=
  let text := entryText originals i kvs
  let vc := entryValidChars text kvs
  let toks := pySplit (pyLower text)
  let rsc := resolveSpeakerCoref pov vc (entrySpeaker0 kvs) (entryCoref kvs) toks
  { index := base + i
    text := text
    characters := vc
    entities := entryEntities vc kvs
    coref := rsc.2
    speaker := finalizeSpeaker rsc.1 }

/-- Validation of one parsed entry: non-dicts are skipped, an entry with
no recoverable text is skipped (both leave the character context
untouched); otherwise the record is emitted and the accepted characters
are added to the context. -/
def cleanEntry (pov : Option String) (originals : List String) (base : Int)
    (i : Nat) (obj : Json) (mentioned : List String) :
    Option Record × List String :=
  match obj with
  | Json.obj kvs =>
    let text := entryText originals i kvs
    if text = "" then (none, mentioned)
    else
      (some (entryRecord pov originals base i kvs),
       insertSetAll mentioned (entryValidChars text kvs))
  | _ => (none, mentioned)

/-- The loop of `clean_and_validate`: entries are processed in order at
offsets `i, i+1, …`, threading the character context; the
point-of-view fallback is the one snapshotted before the loop. -/
def cavLoop (pov : Option String) (originals : List String) (base : Int) :
    Nat → List Json → List String → List Record × List String
  | _, [], m => ([], m)
  | i, obj :: rest, m =>
    let (r?, m2) := cleanEntry pov originals base i obj m
    let (rs, m3) := cavLoop pov originals base (i + 1) rest m2
    (match r? with
     | some r => r :: rs
     | none => rs, m3)

/-- `clean_and_validate(parsed, original_sentences, base_index)` with the
global `mentioned_characters` made explicit: returns the cleaned records
and the updated character context.  The point-of-view fallback
`sorted(list(mentioned_characters))[0]` is computed once, before any
entry of the batch is processed. -/
def clean_and_validate (parsed : List Json) (originals : List String)
    (base : Int) (mentioned : List String) : List Record × List String :=
  cavLoop (pyMin mentioned) originals base 0 parsed mentioned

/-! ### `process_batch` — the Extraction Client -/

/-- `MAX_RETRIES`. -/
def MAX_RETRIES : Nat := 2

/-- `BATCH_SIZE`. -/
def BATCH_SIZE : Nat := 4

/-- Flattening of the batch's sentence entries (source lines 302–311):
strings are kept, string members of nested lists are kept, `None` is
dropped, anything else is `str()`-coerced. -/
def flattenSentences (items : List Json) : List String :=
  items.foldl (fun acc item =>
    match item with
    | Json.str s => acc ++ [s]
    | Json.arr xs =>
      acc ++ xs.foldl (fun a sub =>
        match sub with
        | Json.str s => a ++ [s]
        | _ => a) []
    | Json.null => acc
    | v => acc ++ [pyStr v]) []

/-- The bounded retry loop of `process_batch`: each iteration invokes
the generation capability once (`oracle attempt`, where `none` models a
timeout/invocation failure returning `None`), parses a truthy non-empty
response, and stops on the first truthy parse.  Returns the parse (if
any) and the number of invocations made. -/
def retryLoop (oracle : Nat → Option String) : Nat → Nat → Option Json × Nat
  | 0, _ => (none, 0)
  | k + 1, attempt =>
    match oracle attempt with
    | some resp =>
      if resp ≠ "" ∧ pyTruthy (parse_response resp) = true then
        (some (parse_response resp), 1)
      else
        let (r, c) := retryLoop oracle k (attempt + 1)
        (r, c + 1)
    | none =>
      let (r, c) := retryLoop oracle k (attempt + 1)
      (r, c + 1)

/-- `process_batch` with the generation call abstracted as an oracle of
per-attempt responses.  Returns the validated records (`none` models the
batch being abandoned: empty flattening, retries exhausted, a
non-iterable parse — whose `TypeError` the caller catches — or a fully
filtered batch), the updated character context, and the number of
generation invocations.  The `stop_processing` interrupt flag is not
modelled (it only short-circuits the batch before any work). -/
def process_batch (oracle : Nat → Option String) (batchSentences : List Json)
    (batchStartIdx : Int) (mentioned : List String) :
    Option (List Record) × List String × Nat :=
  let flat := flattenSentences batchSentences
  if flat = [] then (none, mentioned, 0)
  else
    match retryLoop oracle MAX_RETRIES 0 with
    | (none, calls) => (none, mentioned, calls)
    | (some parsed, calls) =>
      match parsed with
      | Json.arr xs =>
        let (cleaned, m2) := clean_and_validate xs flat batchStartIdx mentioned
        if cleaned = [] then (none, m2, calls) else (some cleaned, m2, calls)
      | Json.str s =>
        -- iterating a string yields its characters, none of which is a
        -- dict, so every entry is skipped and the batch comes out empty
        let (cleaned, m2) :=
          clean_and_validate (s.data.map (fun c => Json.str (String.mk [c])))
            flat batchStartIdx mentioned
        if cleaned = [] then (none, m2, calls) else (some cleaned, m2, calls)
      | _ =>
        -- enumerate() over a non-iterable raises; process_batch catches
        -- and abandons the batch
        (none, mentioned, calls)

/-! ### `load_existing_output_safe` — the Resume Tracker -/

/-- The recovery state: the processed-index set and the character
context, both Python sets modelled as duplicate-free lists. -/
abbrev RecoverSt := List Int × List String

/-- Extract the `index` value the way the recovery loops do
(`idx = obj.get("index", -1); if idx >= 0: add`).  `none` models the
`TypeError` a non-number comparison raises, which escapes to the broad
outer handler; Python compares `bool` as its integer value. -/
def recoverIndex (kvs : List (String × Json)) : Option Int :=
  match jGet kvs "index" with
  | none => some (-1)
  | some (Json.num n) => some n
  | some (Json.bool b) => some (if b then 1 else 0)
  | some _ => none

/-- Iterate `obj.get("characters", [])`, adding every element that is a
string: over a list this keeps exactly the string elements (no other
filtering); over a string it yields its one-character substrings; over a
dict it yields the keys; iterating any other value raises (`none`). -/
def recoverChars (kvs : List (String × Json)) : Option (List String) :=
  match jGet kvs "characters" with
  | none => some []
  | some (Json.arr xs) =>
    some (xs.foldl (fun acc c =>
      match c with
      | Json.str s => acc ++ [s]
      | _ => acc) [])
  | some (Json.str s) => some (s.data.map (fun c => String.mk [c]))
  | some (Json.obj kvs2) => some (kvs2.map (·.1))
  | some _ => none

/-- Process one recovered object: add its index (when non-negative) and
its string characters.  The second component flags an abort (a raised
`TypeError` escaping to the outer `except`), with the state as mutated
so far. -/
def recoverObj (st : RecoverSt) (j : Json) : RecoverSt × Bool :=
  match j with
  | Json.obj kvs =>
    match recoverIndex kvs with
    | none => (st, true)
    | some idx =>
      let st1 : RecoverSt := if 0 ≤ idx then (insertSetI st.1 idx, st.2) else st
      match recoverChars kvs with
      | none => (st1, true)
      | some cs => ((st1.1, insertSetAll st1.2 cs), false)
  | _ => (st, false)   -- `if isinstance(obj, dict)` guard: skipped

/-- The recovery loop over a parsed array; an abort stops the loop and
surfaces (the outer handler returns the state gathered so far). -/
def recoverList : List Json → RecoverSt → RecoverSt × Bool
  | [], st => (st, false)
  | j :: rest, st =>
    let (st2, ab) := recoverObj st j
    if ab then (st2, true) else recoverList rest st2

/-- The tail of one match of `r'\{[^{}]*(?:\{[^{}]*\}[^{}]*)*\}'`
starting after an opening brace: a flat run, then zero or more
`{flat}flat` groups, closed by a brace.  Returns the matched characters
(closing brace included) and the rest.  Backtracking never helps this
pattern (the character class cannot cross a brace), so the match is
computed deterministically: a nested opening brace inside a group fails
the whole match, exactly as the regex does. -/
def matchObjTail : Nat → List Char → Option (List Char × List Char)
  | 0, _ => none
  | fuel + 1, cs =>
    let flat := cs.takeWhile (fun c => c ≠ lbrace ∧ c ≠ rbrace)
    let r := cs.dropWhile (fun c => c ≠ lbrace ∧ c ≠ rbrace)
    match r with
    | [] => none
    | b :: rest =>
      if b = rbrace then some (flat ++ [rbrace], rest)
      else
        -- b is an opening brace: one group iteration
        let flat2 := rest.takeWhile (fun c => c ≠ lbrace ∧ c ≠ rbrace)
        let r2 := rest.dropWhile (fun c => c ≠ lbrace ∧ c ≠ rbrace)
        match r2 with
        | b2 :: rest2 =>
          if b2 = rbrace then
            match matchObjTail fuel rest2 with
            | some (m, rr) =>
              some (flat ++ lbrace :: flat2 ++ rbrace :: m, rr)
            | none => none
          else none
        | [] => none

/-- `re.findall` of the balanced-brace object pattern: scan left to
right, at each opening brace attempt a match; matches do not overlap,
and a failed start position is simply passed over. -/
def findFrags : Nat → List Char → List String
  | 0, _ => []
  | _ + 1, [] => []
  | fuel + 1, c :: cs =>
    if c = lbrace then
      match matchObjTail (cs.length + 1) cs with
      | some (m, rest) => String.mk (lbrace :: m) :: findFrags fuel rest
      | none => findFrags fuel cs
    else findFrags fuel cs

/-- Step 3 of the recovery ladder: parse each extracted fragment
independently, skipping decode failures; a fragment parsing to a
non-dict would raise past the inner handler (it cannot: fragments start
with a brace), aborting to the outer handler. -/
def scanFrags : List String → RecoverSt → RecoverSt
  | [], st => st
  | f :: rest, st =>
    match jsonLoads f with
    | none => scanFrags rest st
    | some (Json.obj kvs) =>
      let (st2, ab) := recoverObj st (Json.obj kvs)
      if ab then st2 else scanFrags rest st2
    | some _ => st

/-- `load_existing_output_safe` on the store file's content (the file
read and `.strip()`-ed; a missing or empty file yields the empty
state).  The ladder: whole-content parse, wrapped parse (stripping a
trailing comma), then the fragment scan; a parse that is not a list
falls through to the next rung, and any abort returns the state
recovered so far. -/
def load_existing_output_safe (content0 : String) : RecoverSt :=
  let content := pyStrip content0
  if content = "" then ([], [])
  else
    match jsonLoads content with
    | some (Json.arr xs) => (recoverList xs ([], [])).1
    | _ =>
      let wrapped := "[" ++ pyRstrip (pyRstripComma content) ++ "]"
      match jsonLoads wrapped with
      | some (Json.arr xs) => (recoverList xs ([], [])).1
      | _ => scanFrags (findFrags (content.length + 1) content.data) ([], [])

/-! ### `write_batch_results` — the Writer, and the store -/

/-- `json.dumps`-style escaping inside a string literal
(`ensure_ascii=False`): only the quote, the backslash and control
characters are escaped. -/
def dumpsEscape (c : Char) : String :=
  if c = '"' then "\\\""
  else if c = '\\' then "\\\\"
  else if c = '\n' then "\\n"
  else if c = '\t' then "\\t"
  else if c = '\r' then "\\r"
  else if c.val < 32 then
    -- other control characters (never produced by this pipeline)
    "\\u00" ++ String.mk [Char.ofNat (48 + c.toNat / 16),
                          if c.toNat % 16 < 10 then Char.ofNat (48 + c.toNat % 16)
                          else Char.ofNat (87 + c.toNat % 16)]
  else String.mk [c]

/-- A JSON string literal as `json.dumps(..., ensure_ascii=False)`
writes it. -/
def dumpsString (s : String) : String :=
  "\"" ++ String.join (s.data.map dumpsEscape) ++ "\""

/-- A list of strings under `indent=2`, nested one level deep. -/
def dumpsStrList (l : List String) : String :=
  match l with
  | [] => "[]"
  | _ => "[\n    " ++ String.intercalate ",\n    " (l.map dumpsString) ++ "\n  ]"

/-- A string-to-string mapping under `indent=2`, nested one level deep. -/
def dumpsStrMap (l : List (String × String)) : String :=
  match l with
  | [] => String.mk [lbrace, rbrace]
  | _ =>
    String.mk [lbrace] ++ "\n    "
      ++ String.intercalate ",\n    "
          (l.map (fun p => dumpsString p.1 ++ ": " ++ dumpsString p.2))
      ++ "\n  " ++ String.mk [rbrace]

/-- `json.dumps(obj, ensure_ascii=False, indent=2)` of one record dict,
keys in the insertion order of source lines 275–282. -/
def pyDumps (r : Record) : String :=
  String.mk [lbrace] ++ "\n  \"index\": " ++ toString r.index
    ++ ",\n  \"text\": " ++ dumpsString r.text
    ++ ",\n  \"characters\": " ++ dumpsStrList r.characters
    ++ ",\n  \"entities\": " ++ dumpsStrList r.entities
    ++ ",\n  \"coref\": " ++ dumpsStrMap r.coref
    ++ ",\n  \"speaker\": " ++ dumpsString r.speaker
    ++ "\n" ++ String.mk [rbrace]

/-- The store as the sequence of record fragments the Writer has
appended; its file content is each fragment's serialization followed by
`,\n`. -/
def storeContent (store : List Record) : String :=
  store.foldl (fun acc r => acc ++ pyDumps r ++ ",\n") ""

/-- `write_batch_results`: under the write lock, append each record
whose index is not yet in the completion set and is non-negative, then
add its index to the set. -/
def write_batch_results (batchResults : List Record)
    (st : List Record × List Int) : List Record × List Int :=
  batchResults.foldl (fun (s : List Record × List Int) obj =>
    if obj.index ∉ s.2 ∧ 0 ≤ obj.index then
      (s.1 ++ [obj], insertSetI s.2 obj.index)
    else s) st

/-- The Orchestrator's drain step for one finished batch: a `None`
result (abandoned batch) writes nothing. -/
def drainStep (res : Option (List Record)) (st : List Record × List Int) :
    List Record × List Int :=
  match res with
  | none => st
  | some cleaned => write_batch_results cleaned st

/-! ### `main` — segmentation filtering and batching -/

/-- The positions-and-sentences still to process: enumerate the sentence
sequence and keep the positions absent from the completion set
(source lines 455–457). -/
def sentences_to_process (sentences : List String) (processed : List Int) :
    List (Int × String) :=
  (sentences.enum.filterMap (fun p =>
    if ((p.1 : Int)) ∈ processed then none else some ((p.1 : Int), p.2)))

/-- Grouping of the remaining units into windows of `BATCH_SIZE = 4`
(the last window may be smaller), preserving order — the accumulation
loop of source lines 469–483. -/
def chunk4 {α : Type} : List α → List (List α)
  | [] => []
  | a :: b :: c :: d :: rest => [a, b, c, d] :: chunk4 rest
  | l => [l]

/-- The batches as `main` builds them: each window's sentences paired
with the window's anchor, the position of its first unit. -/
def makeBatches (toProc : List (Int × String)) : List (List String × Int) :=
  (chunk4 toProc).map (fun ch => (ch.map (·.2), (ch.headD (0, "")).1))

/-! ### Statement-level definitions -/

/-- A unit list whose positions are consecutive from anchor `a`. -/
def FromAnchor (a : Int) (l : List (Int × String)) : Prop :=
  ∀ (j : Nat) (p : Int × String), l[j]? = some p → p.1 = a + (j : Int)

/-- The Writer's invariant: every stored record's index is in the
completion set, and the stored indices are pairwise distinct. -/
def storeInv (st : List Record × List Int) : Prop :=
  (∀ r ∈ st.1, r.index ∈ st.2) ∧ (st.1.map (·.index)).Nodup

/-- One generation attempt that yields nothing usable: the call failed
(`None`), or its response is empty or does not recover a truthy parse. -/
def attemptFails (oracle : Nat → Option String) (i : Nat) : Prop :=
  ∀ r, oracle i = some r → r = "" ∨ pyTruthy (parse_response r) = false

/-- The record whose serialization run 1 of the C2 scenario persists:
its text contains an opening brace, which is legal record content. -/
def c2rec : Record :=
  ⟨0, "a" ++ String.mk [lbrace] ++ "b", [], [], [], "Narrator"⟩

/-- The store content after run 1 is interrupted while appending its
second record: one complete fragment for `c2rec`, the separator, and a
prefix of the next fragment. -/
def c2crashContent : String :=
  pyDumps c2rec ++ ",\n"
    ++ String.mk ((pyDumps ⟨1, "c", [], [], [], "Narrator"⟩).data.take 8)

/-- A store content whose only `index` field sits inside a nested
object: the whole-document parse finds a list whose single dict has no
top-level `index`. -/
def c5content : String :=
  "[" ++ String.mk [lbrace] ++ "\"a\": " ++ String.mk [lbrace]
    ++ "\"index\": 3" ++ String.mk [rbrace, rbrace] ++ "]"

/-- `c5content` truncated by two characters: the outer object loses its
closing brace, exposing the nested object to the fragment scan. -/
def c5trunc : String :=
  String.mk (c5content.data.take (c5content.length - 2))

/-- A store content with a pronoun string inside a record's
`characters` list. -/
def c10demo : String :=
  "[" ++ String.mk [lbrace] ++ "\"index\": 0, \"characters\": [\"he\"]"
    ++ String.mk [rbrace] ++ "]"

/-- The index a store fragment carries, when it parses as a record
object. -/
def fragIndex (s : String) : Option Int :=
  match jsonLoads s with
  | some (Json.obj kvs) => recoverIndex kvs
  | _ => none

/-! ## Helper lemmas -/

/-- A property preserved by every fold step holds of the fold's result. -/
theorem foldl_inv {α β : Type} (P : β → Prop) (step : β → α → β)
    (hstep : ∀ b a, P b → P (step b a)) :
    ∀ (l : List α) (b : β), P b → P (l.foldl step b) := by
  intro l
  induction l with
  | nil => intro b hb; exact hb
  | cons a rest ih => intro b hb; exact ih (step b a) (hstep b a hb)

/-- Anything already in the accumulator survives the entity-union fold. -/
theorem foldl_dedup_mem_mono (l : List String) :
    ∀ (acc : List String) (x : String), x ∈ acc →
      x ∈ l.foldl (fun acc c => if c ∈ acc then acc else acc ++ [c]) acc := by
  intro acc x hx
  exact foldl_inv (fun b => x ∈ b) _
    (by
      intro b a hb
      by_cases ha : a ∈ b
      · simpa [ha] using hb
      · simp only [ha, if_neg, not_false_iff]
        exact List.mem_append_left _ hb) l acc hx

/-- Every element of the folded list ends up in the entity-union fold. -/
theorem foldl_dedup_mem (l : List String) :
    ∀ (acc : List String) (c : String), c ∈ l →
      c ∈ l.foldl (fun acc c => if c ∈ acc then acc else acc ++ [c]) acc := by
  induction l with
  | nil => intro acc c hc; cases hc
  | cons a rest ih =>
    intro acc c hc
    simp only [List.foldl_cons]
    rcases List.mem_cons.mp hc with h | h
    · subst h
      by_cases ha : c ∈ acc
      · rw [if_pos ha]
        exact foldl_dedup_mem_mono rest acc c ha
      · rw [if_neg ha]
        exact foldl_dedup_mem_mono rest (acc ++ [c]) c (by simp)
    · by_cases ha : a ∈ acc
      · rw [if_pos ha]; exact ih acc c h
      · rw [if_neg ha]; exact ih (acc ++ [a]) c h

/-- A pair of the updated association list was already present or is the
pair just written. -/
theorem assocSet_mem {l : List (String × String)} {k0 v0 k v : String}
    (h : (k, v) ∈ assocSet l k0 v0) : (k, v) ∈ l ∨ (k = k0 ∧ v = v0) := by
  unfold assocSet at h
  split at h
  · rcases List.mem_map.mp h with ⟨p, hp, he⟩
    by_cases hk : p.1 = k0
    · rw [if_pos hk] at he
      injection he with h1 h2
      exact Or.inr ⟨h1.symm, h2.symm⟩
    · rw [if_neg hk] at he
      exact Or.inl (he ▸ hp)
  · rcases List.mem_append.mp h with h1 | h1
    · exact Or.inl h1
    · right
      simpa using h1

/-- One coreference-filter step only adds pairs whose referent is not a
pronoun. -/
theorem corefStep_inv (P : String → Prop) (hP : ∀ v, pyLower v ∉ PRONOUNS → P v)
    (acc : List (String × String)) (pr : String × Json)
    (hacc : ∀ p v, (p, v) ∈ acc → P v) :
    ∀ p v, (p, v) ∈ corefStep acc pr → P v := by
  intro p v h
  unfold corefStep at h
  rcases hr : corefReferent pr.2 with _ | ref0 <;> rw [hr] at h
  · exact hacc p v h
  · simp only at h
    split at h
    · exact hacc p v h
    · split at h
      · exact hacc p v h
      · by_cases hp2 : pyLower (pyStrip pr.1) =
            pyLower (pyStrip (stripBrackets (pyStrip ref0)))
          ∨ pyLower (pyStrip (stripBrackets (pyStrip ref0))) ∈ PRONOUNS
        · rw [if_pos hp2] at h
          exact hacc p v h
        · rw [if_neg hp2] at h
          split at h
          · rcases assocSet_mem h with hm | ⟨_, hv⟩
            · exact hacc p v hm
            · subst hv
              exact hP _ (fun hc => hp2 (Or.inr hc))
          · exact hacc p v h

/-- The lexicographic minimum returned by `pyMin` is a member of the
list it was computed from. -/
theorem pyMin_mem {l : List String} {f : String} (h : pyMin l = some f) : f ∈ l := by
  unfold pyMin at h
  cases l with
  | nil => cases h
  | cons x xs =>
    simp only [Option.some.injEq] at h
    subst h
    have H : ∀ (l : List String) (a : String), a ∈ x :: xs →
        (∀ b ∈ l, b ∈ x :: xs) →
        l.foldl (fun a b => if b < a then b else a) a ∈ x :: xs := by
      intro l
      induction l with
      | nil => intro a ha _; exact ha
      | cons b rest ih =>
        intro a ha hl
        simp only [List.foldl_cons]
        by_cases hb : b < a
        · rw [if_pos hb]
          exact ih b (hl b (by simp)) (fun y hy => hl y (by simp [hy]))
        · rw [if_neg hb]
          exact ih a ha (fun y hy => hl y (by simp [hy]))
    exact H xs x (by simp) (fun b hb => by simp [hb])

/-- Entries of the filtered coreference mapping never have a pronoun
referent (the filter skips any pair whose repaired referent lowercases
into the pronoun set). -/
theorem entryCoref_no_pronoun (kvs : List (String × Json)) :
    ∀ p v, (p, v) ∈ entryCoref kvs → pyLower v ∉ PRONOUNS := by
  unfold entryCoref
  split
  case h_2 => intro p v h; cases h
  case h_1 cs _ =>
    have := foldl_inv (fun acc => ∀ p v, (p, v) ∈ acc → pyLower v ∉ PRONOUNS)
      corefStep
      (fun acc pr hacc => corefStep_inv (fun v => pyLower v ∉ PRONOUNS)
        (fun _ h => h) acc pr hacc)
      cs [] (by intro p v h; cases h)
    exact this

/-- One character-filter step only adds non-empty non-pronoun names. -/
theorem charStep_inv (text : String) (acc : List String) (cj : Json)
    (hacc : ∀ c ∈ acc, c ≠ "" ∧ pyLower c ∉ PRONOUNS) :
    ∀ c ∈ charStep text acc cj, c ≠ "" ∧ pyLower c ∉ PRONOUNS := by
  intro c h
  unfold charStep at h
  rcases hc : coerceStr cj with _ | c0 <;> rw [hc] at h
  · exact hacc c h
  · simp only at h
    split at h
    · rcases List.mem_append.mp h with hm | hm
      · exact hacc c hm
      · rename_i hcond
        rcases List.mem_singleton.mp hm with rfl
        exact ⟨hcond.1, hcond.2.2.2.1⟩
    · exact hacc c h

/-- Accepted characters are non-empty and never pronouns (the filter
keeps only candidates longer than one character and outside the pronoun
set). -/
theorem entryValidChars_ok (text : String) (kvs : List (String × Json)) :
    ∀ c ∈ entryValidChars text kvs, c ≠ "" ∧ pyLower c ∉ PRONOUNS := by
  unfold entryValidChars
  split
  case h_2 => intro c h; cases h
  case h_1 xs _ =>
    exact foldl_inv (fun acc => ∀ c ∈ acc, c ≠ "" ∧ pyLower c ∉ PRONOUNS)
      (charStep text) (charStep_inv text) xs [] (by intro c h; cases h)

/-- One backfill step keeps every pair either in the original filtered
mapping or mapped to the point-of-view candidate. -/
theorem backfill_step (fc0 : List (String × String)) (cur : String) (toks : List String)
    (fc : List (String × String)) (tok : String)
    (hfc : ∀ p v, (p, v) ∈ fc → (p, v) ∈ fc0 ∨ v = cur) :
    ∀ p v, (p, v) ∈ (if tok ∈ toks ∧ assocFind fc tok = none
        then assocSet fc tok cur else fc) → (p, v) ∈ fc0 ∨ v = cur := by
  intro p v h
  split at h
  · rcases assocSet_mem h with hm | ⟨_, rfl⟩
    · exact hfc p v hm
    · exact Or.inr rfl
  · exact hfc p v h

/-- Every pair of the resolution-adjusted coreference mapping was
already in the filtered mapping, or its value is the record's first
accepted character, or its value is the context fallback name. -/
theorem resolve_coref_mem (pov : Option String) (vc : List String) (sp0 : String)
    (fc0 : List (String × String)) (toks : List String) (p v : String)
    (h : (p, v) ∈ (resolveSpeakerCoref pov vc sp0 fc0 toks).2) :
    (p, v) ∈ fc0 ∨ (∃ tl, vc = v :: tl) ∨ (vc = [] ∧ pov = some v) := by
  unfold resolveSpeakerCoref at h
  split at h
  · cases vc with
    | cons hd tl =>
      simp only at h
      by_cases hu : hd = "Unknown Character"
      · rw [if_pos hu] at h
        exact Or.inl h
      · rw [if_neg hu] at h
        simp only at h
        rcases backfill_step fc0 hd toks _ "me"
            (backfill_step fc0 hd toks _ "my"
              (backfill_step fc0 hd toks fc0 "i" (fun _ _ hx => Or.inl hx)))
            p v h with hm | rfl
        · exact Or.inl hm
        · exact Or.inr (Or.inl ⟨tl, rfl⟩)
    | nil =>
      cases pov with
      | none =>
        simp only at h
        simp only [if_true] at h
        exact Or.inl h
      | some f =>
        simp only at h
        by_cases hfe : f = ""
        · rw [if_pos hfe] at h
          rw [if_pos rfl] at h
          exact Or.inl h
        · rw [if_neg hfe] at h
          by_cases hfu : f = "Unknown Character"
          · rw [if_pos hfu] at h
            exact Or.inl h
          · rw [if_neg hfu] at h
            simp only at h
            rcases backfill_step fc0 f toks _ "me"
                (backfill_step fc0 f toks _ "my"
                  (backfill_step fc0 f toks fc0 "i" (fun _ _ hx => Or.inl hx)))
                p v h with hm | rfl
            · exact Or.inl hm
            · exact Or.inr (Or.inr ⟨rfl, rfl⟩)
  · exact Or.inl h

/-- When the resolution trigger does not fire, speaker and coreference
pass through unchanged. -/
theorem resolve_untriggered (pov : Option String) (vc : List String) (sp0 : String)
    (fc0 : List (String × String)) (toks : List String)
    (h : ¬ (entryHasFP toks = true
        ∧ (sp0 = "Narrator" ∨ sp0 = "" ∨ pyLower sp0 ∈ PRONOUNS))) :
    resolveSpeakerCoref pov vc sp0 fc0 toks = (sp0, fc0) := by
  unfold resolveSpeakerCoref
  rw [if_neg h]

/-- Priority 1: with the trigger fired and at least one accepted
character, the resolved speaker is the record's first accepted
character (unless it is literally "Unknown Character"). -/
theorem resolve_speaker_head (pov : Option String) (hd : String) (tl : List String)
    (sp0 : String) (fc0 : List (String × String)) (toks : List String)
    (htr : entryHasFP toks = true
        ∧ (sp0 = "Narrator" ∨ sp0 = "" ∨ pyLower sp0 ∈ PRONOUNS))
    (hu : hd ≠ "Unknown Character") :
    (resolveSpeakerCoref pov (hd :: tl) sp0 fc0 toks).1 = hd := by
  unfold resolveSpeakerCoref
  rw [if_pos htr]
  simp only [if_neg hu]

/-- Priority 2: with the trigger fired, no accepted character and a
usable (truthy, non-sentinel) context fallback, the resolved speaker is
the fallback name. -/
theorem resolve_speaker_fallback (f : String) (sp0 : String)
    (fc0 : List (String × String)) (toks : List String)
    (htr : entryHasFP toks = true
        ∧ (sp0 = "Narrator" ∨ sp0 = "" ∨ pyLower sp0 ∈ PRONOUNS))
    (hf1 : f ≠ "") (hf2 : f ≠ "Unknown Character") :
    (resolveSpeakerCoref (some f) [] sp0 fc0 toks).1 = f := by
  unfold resolveSpeakerCoref
  rw [if_pos htr]
  simp only [if_neg hf1, if_neg hf2]

/-- Priority 3: with the trigger fired but no accepted character and no
usable fallback, the speaker is left as it was. -/
theorem resolve_speaker_unresolved (pov : Option String) (sp0 : String)
    (fc0 : List (String × String)) (toks : List String)
    (hp : pov = none ∨ pov = some "") :
    (resolveSpeakerCoref pov [] sp0 fc0 toks).1 = sp0 := by
  unfold resolveSpeakerCoref
  split
  · rcases hp with rfl | rfl
    · simp
    · simp
  · rfl

/-- The finalized speaker is never empty and never a pronoun. -/
theorem finalizeSpeaker_ok (s : String) :
    finalizeSpeaker s ≠ "" ∧ pyLower (finalizeSpeaker s) ∉ PRONOUNS := by
  unfold finalizeSpeaker
  split
  · constructor
    · decide
    · decide
  · rename_i h
    push_neg at h
    exact h

/-- Characterisation of a record emitted by `cleanEntry`: the raw entry
was a dict with recoverable text, and the record is `entryRecord` of it. -/
theorem cleanEntry_some {pov : Option String} {originals : List String}
    {base : Int} {i : Nat} {obj : Json} {m : List String} {r : Record}
    (h : (cleanEntry pov originals base i obj m).1 = some r) :
    ∃ kvs, obj = Json.obj kvs ∧ entryText originals i kvs ≠ ""
      ∧ r = entryRecord pov originals base i kvs := by
  cases obj with
  | obj kvs =>
    refine ⟨kvs, rfl, ?_, ?_⟩
    · intro he
      simp only [cleanEntry, he, if_pos] at h
      cases h
    · by_cases he : entryText originals i kvs = ""
      · simp only [cleanEntry, he, if_pos] at h; cases h
      · simp only [cleanEntry, he, if_neg, not_false_iff] at h
        exact (Option.some.injEq _ _ ▸ h).symm
  | null => cases h
  | bool b => cases h
  | num n => cases h
  | str s => cases h
  | arr xs => cases h

/-- Every record produced by the validation loop comes from some entry
of the parsed list, processed at its offset with the loop's fixed
point-of-view fallback. -/
theorem cavLoop_mem (pov : Option String) (originals : List String) (base : Int) :
    ∀ (parsed : List Json) (i : Nat) (m : List String) (r : Record),
      r ∈ (cavLoop pov originals base i parsed m).1 →
      ∃ j obj m2, parsed[j]? = some obj ∧
        (cleanEntry pov originals base (i + j) obj m2).1 = some r := by
  intro parsed
  induction parsed with
  | nil => intro i m r h; simp [cavLoop] at h
  | cons obj rest ih =>
    intro i m r h
    simp only [cavLoop] at h
    rcases hce : cleanEntry pov originals base i obj m with ⟨r?, m2⟩
    rw [hce] at h
    rcases hcl : cavLoop pov originals base (i + 1) rest m2 with ⟨rs, m3⟩
    rw [hcl] at h
    simp only at h
    cases r? with
    | none =>
      simp only at h
      rcases ih (i + 1) m2 r (by rw [hcl]; exact h) with ⟨j, o2, m4, hj, hc2⟩
      exact ⟨j + 1, o2, m4, by simpa using hj, by rw [Nat.add_comm j 1, ← Nat.add_assoc]; exact hc2⟩
    | some r0 =>
      simp only [List.mem_cons] at h
      rcases h with rfl | h
      · exact ⟨0, obj, m, by simp, by rw [Nat.add_zero]; rw [hce]⟩
      · rcases ih (i + 1) m2 r (by rw [hcl]; exact h) with ⟨j, o2, m4, hj, hc2⟩
        exact ⟨j + 1, o2, m4, by simpa using hj, by rw [Nat.add_comm j 1, ← Nat.add_assoc]; exact hc2⟩

/-- The speaker of an emitted record is the finalized resolution result. -/
theorem entryRecord_speaker (pov : Option String) (originals : List String)
    (base : Int) (i : Nat) (kvs : List (String × Json)) :
    (entryRecord pov originals base i kvs).speaker =
      finalizeSpeaker (resolveSpeakerCoref pov (entryValidChars (entryText originals i kvs) kvs)
        (entrySpeaker0 kvs) (entryCoref kvs) (pySplit (pyLower (entryText originals i kvs)))).1 := rfl

/-- The coref of an emitted record is the resolution-adjusted mapping. -/
theorem entryRecord_coref (pov : Option String) (originals : List String)
    (base : Int) (i : Nat) (kvs : List (String × Json)) :
    (entryRecord pov originals base i kvs).coref =
      (resolveSpeakerCoref pov (entryValidChars (entryText originals i kvs) kvs)
        (entrySpeaker0 kvs) (entryCoref kvs) (pySplit (pyLower (entryText originals i kvs)))).2 := rfl

/-- Index, characters and entities of an emitted record. -/
theorem entryRecord_fields (pov : Option String) (originals : List String)
    (base : Int) (i : Nat) (kvs : List (String × Json)) :
    (entryRecord pov originals base i kvs).index = base + i
    ∧ (entryRecord pov originals base i kvs).characters =
        entryValidChars (entryText originals i kvs) kvs
    ∧ (entryRecord pov originals base i kvs).entities =
        entryEntities (entryValidChars (entryText originals i kvs) kvs) kvs := ⟨rfl, rfl, rfl⟩

/-! ## The claims -/

/-- C9 (confirmed).  On the exact response
`"Sure! Here's the JSON: [{'text': 'Ok.'},]"` the fallback parser
discards the leading commentary, normalises the single quotes,
strips the trailing comma, and returns a list of exactly one candidate
record whose `text` field is `"Ok."`. -/
theorem c9_fallback_recovery :
    parse_response ("Sure! Here" ++ aposS ++ "s the JSON: ["
        ++ String.mk [lbrace] ++ aposS ++ "text" ++ aposS ++ ": "
        ++ aposS ++ "Ok." ++ aposS ++ String.mk [rbrace] ++ ",]")
      = Json.arr [Json.obj [("text", Json.str "Ok.")]] := by rfl

/-- C7 (confirmed).  Every record emitted by the Validator has a
speaker that is neither empty nor (case-insensitively) a pronoun: the
final validation step collapses any empty or pronoun speaker to
"Narrator" before the record is built. -/
theorem c7_speaker_never_pronoun (parsed : List Json) (originals : List String)
    (base : Int) (mentioned : List String) (r : Record)
    (hr : r ∈ (clean_and_validate parsed originals base mentioned).1) :
    r.speaker ≠ "" ∧ pyLower r.speaker ∉ PRONOUNS := by
  rcases cavLoop_mem (pyMin mentioned) originals base parsed 0 mentioned r hr
    with ⟨j, obj, m2, _, hce⟩
  rcases cleanEntry_some hce with ⟨kvs, _, _, rfl⟩
  rw [entryRecord_speaker]
  exact finalizeSpeaker_ok _

/-- C7 witness. -/
theorem c7_witness :
    (⟨0, "i ran", [], [], [], "Narrator"⟩ : Record)
      ∈ (clean_and_validate [Json.obj [("text", Json.str "i ran"),
          ("speaker", Json.str "he")]] ["i ran"] 0 []).1
    ∧ ("Narrator" ≠ "" ∧ pyLower "Narrator" ∉ PRONOUNS) := by
  refine ⟨by decide, ?_⟩
  exact c7_speaker_never_pronoun [Json.obj [("text", Json.str "i ran"),
      ("speaker", Json.str "he")]] ["i ran"] 0 []
    ⟨0, "i ran", [], [], [], "Narrator"⟩ (by decide)

/-- C8 (confirmed).  In every record emitted by the Validator the
characters are a subset of the entities: after entity filtering, each
accepted character not already present is appended to the entity list. -/
theorem c8_characters_subset_entities (parsed : List Json) (originals : List String)
    (base : Int) (mentioned : List String) (r : Record)
    (hr : r ∈ (clean_and_validate parsed originals base mentioned).1) :
    ∀ c ∈ r.characters, c ∈ r.entities := by
  rcases cavLoop_mem (pyMin mentioned) originals base parsed 0 mentioned r hr
    with ⟨j, obj, m2, _, hce⟩
  rcases cleanEntry_some hce with ⟨kvs, _, _, rfl⟩
  intro c hc
  rw [(entryRecord_fields _ _ _ _ _).2.1] at hc
  rw [(entryRecord_fields _ _ _ _ _).2.2]
  unfold entryEntities
  exact foldl_dedup_mem _ _ c hc

/-- C8 witness. -/
theorem c8_witness :
    (⟨0, "Bob ran.", ["Bob"], ["Bob"], [], "Narrator"⟩ : Record)
      ∈ (clean_and_validate [Json.obj [("text", Json.str "Bob ran."),
          ("characters", Json.arr [Json.str "Bob"])]] ["Bob ran."] 0 []).1
    ∧ "Bob" ∈ (["Bob"] : List String) ∧ "Bob" ∈ (["Bob"] : List String) := by
  refine ⟨by decide, by decide, ?_⟩
  exact c8_characters_subset_entities [Json.obj [("text", Json.str "Bob ran."),
      ("characters", Json.arr [Json.str "Bob"])]] ["Bob ran."] 0 []
    ⟨0, "Bob ran.", ["Bob"], ["Bob"], [], "Narrator"⟩ (by decide) "Bob" (by decide)

/-- C1 counterexample.  The claim says no persisted coref value
equals "Narrator"; but the coref filter only rejects pronoun referents
and referents equal to their key, so the raw record
`{"text": "He left.", "coref": {"he": "Narrator"}}` is validated into a
record whose coref maps "he" to "Narrator". -/
theorem c1_counterexample :
    (clean_and_validate
        [Json.obj [("text", Json.str "He left."),
                   ("coref", Json.obj [("he", Json.str "Narrator")])]]
        ["He left."] 0 []).1
      = [⟨0, "He left.", [], [], [("he", "Narrator")], "Narrator"⟩]
    ∧ ("he", "Narrator")
        ∈ (⟨0, "He left.", [], [], [("he", "Narrator")], "Narrator"⟩ : Record).coref := by
  exact ⟨by decide, by decide⟩

/-- C1 (corrected).  For every record emitted by the Validator, no
coref value is a pronoun: filtered pairs have non-pronoun referents,
and the backfilled first-person entries map to the point-of-view
candidate, which is an accepted character (never a pronoun) or the
context minimum — a non-pronoun provided every name in the incoming
character context is a non-pronoun.  (Values equal to "Narrator" are
NOT removed, contrary to the claim.) -/
theorem c1_coref_values_never_pronoun (parsed : List Json) (originals : List String)
    (base : Int) (mentioned : List String)
    (hm : ∀ c ∈ mentioned, pyLower c ∉ PRONOUNS) (r : Record)
    (hr : r ∈ (clean_and_validate parsed originals base mentioned).1) :
    ∀ p v, (p, v) ∈ r.coref → pyLower v ∉ PRONOUNS := by
  rcases cavLoop_mem (pyMin mentioned) originals base parsed 0 mentioned r hr
    with ⟨j, obj, m2, _, hce⟩
  rcases cleanEntry_some hce with ⟨kvs, _, _, rfl⟩
  intro p v hpv
  rw [entryRecord_coref] at hpv
  rcases resolve_coref_mem _ _ _ _ _ p v hpv with hm2 | ⟨tl, hhd⟩ | ⟨_, hpm⟩
  · exact entryCoref_no_pronoun kvs p v hm2
  · exact (entryValidChars_ok _ kvs v (by rw [hhd]; simp)).2
  · exact hm v (pyMin_mem hpm)

set_option maxHeartbeats 2000000 in
/-- C4 counterexample.  The claim says the point-of-view fallback is
the lexicographically first name in the CharacterContext *as it stands
at that record's validation, including names contributed by earlier
records of the same batch*.  In a batch whose first record contributes
"Zed" to the context and whose second record is first-person with
speaker "Narrator" and no accepted characters, the claim predicts the
second record's speaker resolves to "Zed"; the code computes the
fallback once from the pre-batch snapshot (empty here), so the second
record's speaker stays "Narrator" even though the context at its
validation already contains "Zed" (as the final context shows). -/
theorem c4_counterexample :
    (clean_and_validate
        [Json.obj [("text", Json.str "Zed ran."),
                   ("characters", Json.arr [Json.str "Zed"])],
         Json.obj [("text", Json.str "i ran"), ("speaker", Json.str "Narrator")]]
        ["Zed ran.", "i ran"] 0 []).1
      = [⟨0, "Zed ran.", ["Zed"], ["Zed"], [], "Narrator"⟩,
         ⟨1, "i ran", [], [], [], "Narrator"⟩]
    ∧ (clean_and_validate
        [Json.obj [("text", Json.str "Zed ran."),
                   ("characters", Json.arr [Json.str "Zed"])],
         Json.obj [("text", Json.str "i ran"), ("speaker", Json.str "Narrator")]]
        ["Zed ran.", "i ran"] 0 []).2 = ["Zed"]
    ∧ pyMin ["Zed"] = some "Zed"
    ∧ ("Narrator" : String) ≠ "Zed" := by
  exact ⟨by decide, by decide, by decide, by decide⟩

/-- C4 (corrected).  The Validator resolves the point-of-view candidate
by priority — (1) the record's first accepted character, else (2) the
lexicographically first (truthy) name of the CharacterContext *as
snapshotted before the batch's first record* (`clean_and_validate`
computes the fallback once, so names contributed by earlier records of
the same batch are not visible), else (3) it leaves the speaker
unresolved — and a record's validation result does not depend on the
threaded context at all, only on the snapshot. -/
theorem c4_pov_priority :
    (∀ (parsed : List Json) (originals : List String) (base : Int) (m : List String),
       clean_and_validate parsed originals base m
         = cavLoop (pyMin m) originals base 0 parsed m)
    ∧ (∀ (pov : Option String) (originals : List String) (base : Int) (i : Nat)
         (obj : Json) (m m2 : List String),
       (cleanEntry pov originals base i obj m).1 = (cleanEntry pov originals base i obj m2).1)
    ∧ (∀ (pov : Option String) (hd : String) (tl : List String) (sp0 : String)
         (fc0 : List (String × String)) (toks : List String),
       entryHasFP toks = true
         → (sp0 = "Narrator" ∨ sp0 = "" ∨ pyLower sp0 ∈ PRONOUNS)
         → hd ≠ "Unknown Character"
         → (resolveSpeakerCoref pov (hd :: tl) sp0 fc0 toks).1 = hd)
    ∧ (∀ (f : String) (sp0 : String) (fc0 : List (String × String)) (toks : List String),
       entryHasFP toks = true
         → (sp0 = "Narrator" ∨ sp0 = "" ∨ pyLower sp0 ∈ PRONOUNS)
         → f ≠ "" → f ≠ "Unknown Character"
         → (resolveSpeakerCoref (some f) [] sp0 fc0 toks).1 = f)
    ∧ (∀ (pov : Option String) (sp0 : String) (fc0 : List (String × String))
         (toks : List String),
       (pov = none ∨ pov = some "")
         → (resolveSpeakerCoref pov [] sp0 fc0 toks).1 = sp0)
    ∧ (∀ (pov : Option String) (originals : List String) (base : Int) (i : Nat)
         (kvs : List (String × Json)),
       (entryRecord pov originals base i kvs).speaker
         = finalizeSpeaker (resolveSpeakerCoref pov
             (entryValidChars (entryText originals i kvs) kvs)
             (entrySpeaker0 kvs) (entryCoref kvs)
             (pySplit (pyLower (entryText originals i kvs)))).1) := by
  refine ⟨fun _ _ _ _ => rfl, ?_, ?_, ?_, ?_,
    fun pov originals base i kvs => entryRecord_speaker pov originals base i kvs⟩
  · intro pov originals base i obj m m2
    cases obj with
    | obj kvs =>
      by_cases h : entryText originals i kvs = ""
      · simp only [cleanEntry, if_pos h]
      · simp only [cleanEntry, if_neg h]
    | null => rfl
    | bool b => rfl
    | num n => rfl
    | str s => rfl
    | arr xs => rfl
  · intro pov hd tl sp0 fc0 toks h1 h2 hu
    exact resolve_speaker_head pov hd tl sp0 fc0 toks ⟨h1, h2⟩ hu
  · intro f sp0 fc0 toks h1 h2 hf1 hf2
    exact resolve_speaker_fallback f sp0 fc0 toks ⟨h1, h2⟩ hf1 hf2
  · intro pov sp0 fc0 toks hp
    exact resolve_speaker_unresolved pov sp0 fc0 toks hp

/-- C4 witness. -/
theorem c4_pov_priority_witness :
    (entryHasFP (pySplit (pyLower "i ran")) = true
      ∧ ("Narrator" = "Narrator" ∨ "Narrator" = "" ∨ pyLower "Narrator" ∈ PRONOUNS)
      ∧ "Zed" ≠ "Unknown Character")
    ∧ (resolveSpeakerCoref none ["Zed"] "Narrator" [] (pySplit (pyLower "i ran"))).1
        = "Zed" := by
  refine ⟨⟨by decide, Or.inl rfl, by decide⟩, ?_⟩
  exact c4_pov_priority.2.2.1 none "Zed" [] "Narrator" [] (pySplit (pyLower "i ran"))
    (by decide) (Or.inl rfl) (by decide)

/-- C3 counterexample.  With sentences at positions 0–4 and position 1
already completed, the first batch contains the units at positions
0, 2, 3, 4 with anchor 0: the batch's second unit sits at absolute
position 2, not at `anchor + 1 = 1`, so the record produced for it
(assigned index `anchor + 1 = 1`) does not carry that unit's original
position. -/
theorem c3_counterexample :
    sentences_to_process ["a", "b", "c", "d", "e"] [1]
      = [(0, "a"), (2, "c"), (3, "d"), (4, "e")]
    ∧ chunk4 [((0 : Int), "a"), (2, "c"), (3, "d"), (4, "e")]
      = [[(0, "a"), (2, "c"), (3, "d"), (4, "e")]]
    ∧ [((0 : Int), "a"), (2, "c"), (3, "d"), (4, "e")][1]? = some (2, "c")
    ∧ ([((0 : Int), "a"), (2, "c"), (3, "d"), (4, "e")].headD (0, "")).1 = 0
    ∧ ((2 : Int), "c").1 ≠ ((0 : Int) + 1) := by
  exact ⟨by decide, by decide, by decide, by decide, by decide⟩

/-- C3 (corrected).  Whenever the not-yet-completed positions handed to
the Batcher are consecutive (e.g. on a fresh run, or when the
CompletionSet is a prefix of the positions), every batch window's units
occupy contiguous absolute positions `anchor, anchor+1, …`, and the
Validator assigns the record built from the `i`-th parsed entry the
index `anchor + i`; with interior gaps in the CompletionSet the batch's
units are not contiguous (see the counterexample). -/
theorem c3_batch_anchor :
    (∀ (a : Int) (l : List (Int × String)), FromAnchor a l →
       ∀ ch ∈ chunk4 l, ∀ (j : Nat) (p q : Int × String),
         ch[0]? = some q → ch[j]? = some p → p.1 = q.1 + (j : Int))
    ∧ (∀ (parsed : List Json) (originals : List String) (base : Int)
         (m : List String) (r : Record),
       r ∈ (clean_and_validate parsed originals base m).1 →
         ∃ (j : Nat) (obj : Json), parsed[j]? = some obj ∧ r.index = base + (j : Int)) := by
  constructor
  · -- every chunk inherits consecutiveness from the filtered unit list
    have key : ∀ (n : Nat) (l : List (Int × String)), l.length ≤ n →
        ∀ (a : Int), FromAnchor a l → ∀ ch ∈ chunk4 l, ∃ b, FromAnchor b ch := by
      intro n
      induction n with
      | zero =>
        intro l hl a _ ch hch
        rw [List.length_eq_zero.mp (Nat.le_zero.mp hl)] at hch
        simp [chunk4] at hch
      | succ n ih =>
        intro l hl a ha ch hch
        match l with
        | [] => simp [chunk4] at hch
        | [x] =>
          rw [show chunk4 [x] = [[x]] from rfl] at hch
          rcases List.mem_singleton.mp hch with rfl
          exact ⟨a, ha⟩
        | [x, y] =>
          rw [show chunk4 [x, y] = [[x, y]] from rfl] at hch
          rcases List.mem_singleton.mp hch with rfl
          exact ⟨a, ha⟩
        | [x, y, z] =>
          rw [show chunk4 [x, y, z] = [[x, y, z]] from rfl] at hch
          rcases List.mem_singleton.mp hch with rfl
          exact ⟨a, ha⟩
        | x :: y :: z :: w :: rest =>
          rw [show chunk4 (x :: y :: z :: w :: rest)
              = [x, y, z, w] :: chunk4 rest from rfl] at hch
          rcases List.mem_cons.mp hch with rfl | hch2
          · refine ⟨a, ?_⟩
            intro j p hj
            match j with
            | 0 => exact ha 0 p (by simpa using hj)
            | 1 => exact ha 1 p (by simpa using hj)
            | 2 => exact ha 2 p (by simpa using hj)
            | 3 => exact ha 3 p (by simpa using hj)
            | j + 4 => simp at hj
          · have hrest : FromAnchor (a + 4) rest := by
              intro j p hj
              have h4 := ha (j + 4) p (by simpa using hj)
              push_cast at h4 ⊢
              linarith
            have hlen : rest.length ≤ n := by
              simp only [List.length_cons] at hl
              omega
            exact ih rest hlen (a + 4) hrest ch hch2
    intro a l ha ch hch j p q h0 hj
    rcases key l.length l le_rfl a ha ch hch with ⟨b, hb⟩
    have hq := hb 0 q h0
    have hp := hb j p hj
    push_cast at hq hp ⊢
    omega
  · intro parsed originals base m r hr
    rcases cavLoop_mem (pyMin m) originals base parsed 0 m r hr
      with ⟨j, obj, m2, hj, hce⟩
    rcases cleanEntry_some hce with ⟨kvs, _, _, rfl⟩
    refine ⟨j, obj, hj, ?_⟩
    rw [(entryRecord_fields _ _ _ _ _).1]
    push_cast
    omega

/-- C3 witness. -/
theorem c3_batch_anchor_witness :
    (FromAnchor 5 [((5 : Int), "a"), (6, "b")]
      ∧ [((5 : Int), "a"), (6, "b")] ∈ chunk4 [((5 : Int), "a"), (6, "b")]
      ∧ [((5 : Int), "a"), (6, "b")][0]? = some (5, "a")
      ∧ [((5 : Int), "a"), (6, "b")][1]? = some (6, "b"))
    ∧ ((6 : Int), "b").1 = ((5 : Int), "a").1 + (1 : Nat) := by
  have hfa : FromAnchor 5 [((5 : Int), "a"), (6, "b")] := by
    intro j p hj
    match j with
    | 0 =>
      simp only [List.getElem?_cons_zero, Option.some.injEq] at hj
      rw [← hj]
      simp
    | 1 =>
      simp only [List.getElem?_cons_succ, List.getElem?_cons_zero,
        Option.some.injEq] at hj
      rw [← hj]
      simp
    | j + 2 => simp at hj
  refine ⟨⟨hfa, by decide, by decide, by decide⟩, ?_⟩
  exact c3_batch_anchor.1 5 [((5 : Int), "a"), (6, "b")] hfa
    [((5 : Int), "a"), (6, "b")] (by decide) 1 (6, "b") (5, "a")
    (by decide) (by decide)

/-- The retry loop never invokes the generation capability more often
than it has attempts left. -/
theorem retryLoop_count (oracle : Nat → Option String) :
    ∀ (k a : Nat), (retryLoop oracle k a).2 ≤ k := by
  intro k
  induction k with
  | zero => intro a; simp [retryLoop]
  | succ k ih =>
    intro a
    rcases ho : oracle a with _ | resp
    · simp only [retryLoop, ho]
      exact Nat.succ_le_succ (ih (a + 1))
    · simp only [retryLoop, ho]
      split
      · simp
      · exact Nat.succ_le_succ (ih (a + 1))

/-- If every attempt in the window fails, the retry loop produces no
parse. -/
theorem retryLoop_fail (oracle : Nat → Option String) :
    ∀ (k a : Nat), (∀ i, a ≤ i → i < a + k → attemptFails oracle i) →
      (retryLoop oracle k a).1 = none := by
  intro k
  induction k with
  | zero => intro a _; rfl
  | succ k ih =>
    intro a h
    rcases ho : oracle a with _ | resp
    · simp only [retryLoop, ho]
      exact ih (a + 1) (fun i h1 h2 => h i (by omega) (by omega))
    · have hf := h a (Nat.le_refl a) (by omega) resp ho
      have hcond : ¬ (resp ≠ "" ∧ pyTruthy (parse_response resp) = true) := by
        rcases hf with hf | hf
        · intro hc; exact hc.1 hf
        · intro hc; rw [hf] at hc; exact Bool.false_ne_true hc.2
      simp only [retryLoop, ho]
      rw [if_neg hcond]
      exact ih (a + 1) (fun i h1 h2 => h i (by omega) (by omega))

/-- C6 (confirmed).  The Extraction Client invokes the generation
capability at most `MAX_RETRIES` times per batch; when no attempt
yields a parseable (truthy) response the batch produces no records and
terminates without raising; and the Orchestrator's drain step for an
abandoned batch leaves the store and CompletionSet untouched, so the
batch's positions stay absent from the CompletionSet. -/
theorem c6_retry_bounded (oracle : Nat → Option String) (bs : List Json)
    (start : Int) (m : List String) :
    (process_batch oracle bs start m).2.2 ≤ MAX_RETRIES
    ∧ ((∀ i, i < MAX_RETRIES → attemptFails oracle i) →
        (process_batch oracle bs start m).1 = none)
    ∧ (∀ st : List Record × List Int, drainStep none st = st) := by
  refine ⟨?_, ?_, fun st => rfl⟩
  · rcases hr : retryLoop oracle MAX_RETRIES 0 with ⟨p?, calls⟩
    have hc := retryLoop_count oracle MAX_RETRIES 0
    rw [hr] at hc
    simp only [process_batch]
    rw [hr]
    by_cases hflat : flattenSentences bs = []
    · rw [if_pos hflat]
      simp [MAX_RETRIES]
    · rw [if_neg hflat]
      cases p? with
      | none => simpa using hc
      | some parsed =>
        cases parsed with
        | arr xs =>
          simp only
          rcases clean_and_validate xs _ start m with ⟨cleaned, m2⟩
          split <;> simpa using hc
        | str s =>
          simp only
          rcases clean_and_validate _ _ start m with ⟨cleaned, m2⟩
          split <;> simpa using hc
        | null => simpa using hc
        | bool b => simpa using hc
        | num n => simpa using hc
        | obj kvs => simpa using hc
  · intro h
    have hn := retryLoop_fail oracle MAX_RETRIES 0
      (fun i h1 h2 => h i (by simpa using h2))
    rcases hr : retryLoop oracle MAX_RETRIES 0 with ⟨p?, calls⟩
    rw [hr] at hn
    simp only at hn
    subst hn
    simp only [process_batch]
    rw [hr]
    by_cases hflat : flattenSentences bs = []
    · rw [if_pos hflat]
    · rw [if_neg hflat]

/-- C6 witness. -/
theorem c6_witness :
    (∀ i, i < MAX_RETRIES → attemptFails (fun _ => none) i)
    ∧ (process_batch (fun _ => none) [Json.str "Hi."] 0 []).1 = none
    ∧ (process_batch (fun _ => none) [Json.str "Hi."] 0 []).2.2 ≤ MAX_RETRIES := by
  have hfail : ∀ i, i < MAX_RETRIES → attemptFails (fun _ => none) i :=
    fun i _ r hr => Option.noConfusion hr
  exact ⟨hfail,
    (c6_retry_bounded (fun _ => none) [Json.str "Hi."] 0 []).2.1 hfail,
    (c6_retry_bounded (fun _ => none) [Json.str "Hi."] 0 []).1⟩

/-- Membership is preserved by a set-insert of an index. -/
theorem insertSetI_mono {l : List Int} {x i : Int} (h : x ∈ l) :
    x ∈ insertSetI l i := by
  unfold insertSetI
  split
  · exact h
  · exact List.mem_append_left _ h

/-- The inserted index is in the set afterwards. -/
theorem insertSetI_self (l : List Int) (i : Int) : i ∈ insertSetI l i := by
  unfold insertSetI
  split
  · assumption
  · simp

/-- One Writer append preserves the store invariant: stored indices are
covered by the completion set and remain pairwise distinct. -/
theorem write_step_inv (st : List Record × List Int) (obj : Record)
    (h : storeInv st) :
    storeInv (if obj.index ∉ st.2 ∧ 0 ≤ obj.index then
      (st.1 ++ [obj], insertSetI st.2 obj.index) else st) := by
  split
  · rename_i hcond
    constructor
    · intro r hrm
      rcases List.mem_append.mp hrm with hm | hm
      · exact insertSetI_mono (h.1 r hm)
      · rcases List.mem_singleton.mp hm with rfl
        exact insertSetI_self _ _
    · simp only [List.map_append, List.map_cons, List.map_nil]
      rw [List.nodup_append]
      refine ⟨h.2, List.nodup_singleton _, ?_⟩
      intro x hx hx1
      rcases List.mem_singleton.mp hx1 with rfl
      rcases List.mem_map.mp hx with ⟨r, hr, hre⟩
      exact hcond.1 (hre ▸ h.1 r hr)
  · exact h

/-- A whole batch append preserves the store invariant. -/
theorem write_batch_inv (batch : List Record) :
    ∀ (st : List Record × List Int), storeInv st →
      storeInv (write_batch_results batch st) := by
  unfold write_batch_results
  induction batch with
  | nil => intro st h; exact h
  | cons obj rest ih =>
    intro st h
    simp only [List.foldl_cons]
    exact ih _ (write_step_inv st obj h)

set_option maxRecDepth 100000 in
set_option maxHeartbeats 4000000 in
/-- C2 counterexample.  Run 1 appends the record `c2rec` (indexed 0,
with a brace in its text) and crashes while appending its second
record, leaving `c2crashContent` — which still contains the complete,
well-formed fragment of `c2rec`.  The Resume Tracker recovers an empty
CompletionSet from that content (the whole-document and wrapped parses
fail; the balanced-brace scan mis-brackets the fragment because of the
brace in the text, and the mangled fragment does not parse), so run 2's
Writer appends index 0 again: the final store content contains two
complete record fragments both carrying index 0. -/
theorem c2_counterexample :
    write_batch_results [c2rec] ([], []) = ([c2rec], [0])
    ∧ load_existing_output_safe c2crashContent = ([], [])
    ∧ write_batch_results [c2rec]
        ([], (load_existing_output_safe c2crashContent).1) = ([c2rec], [0])
    ∧ c2crashContent ++ pyDumps c2rec ++ ",\n"
        = pyDumps c2rec ++ ",\n"
          ++ String.mk ((pyDumps ⟨1, "c", [], [], [], "Narrator"⟩).data.take 8)
          ++ pyDumps c2rec ++ ",\n"
    ∧ fragIndex (pyDumps c2rec) = some 0 := by
  exact ⟨by decide, by decide, by decide, by decide, by decide⟩

/-- C2 (corrected).  Within one run — and across runs whenever the
recovered CompletionSet covers every index present in the store — each
index appears at most once among the records the Writer appends: the
Writer appends a record only if its index is non-negative and not in
the completion set, then adds the index to the set, so the
covered-and-distinct store invariant is preserved across any sequence
of batches.  (With a corrupted store whose recovery misses a persisted
index, a duplicate is possible; see the counterexample.) -/
theorem c2_index_unique (batches : List (List Record))
    (st : List Record × List Int) (h : storeInv st) :
    storeInv (batches.foldl (fun s b => write_batch_results b s) st)
    ∧ (((batches.foldl (fun s b => write_batch_results b s) st).1.map
        (·.index)).Nodup) := by
  have H : storeInv (batches.foldl (fun s b => write_batch_results b s) st) := by
    induction batches generalizing st with
    | nil => exact h
    | cons b rest ih =>
      simp only [List.foldl_cons]
      exact ih _ (write_batch_inv b st h)
  exact ⟨H, H.2⟩

/-- C2 witness. -/
theorem c2_witness :
    storeInv ([], [])
    ∧ ((([[c2rec], [c2rec]].foldl (fun s b => write_batch_results b s)
        ([], [])).1.map (·.index)).Nodup) := by
  have h0 : storeInv (([], []) : List Record × List Int) := by
    unfold storeInv
    exact ⟨fun r hr => absurd hr (List.not_mem_nil r), List.nodup_nil⟩
  exact ⟨h0, (c2_index_unique [[c2rec], [c2rec]] ([], []) h0).2⟩

/-- Elements of a set-insert come from the set or are the new index. -/
theorem insertSetI_mem {l : List Int} {x i : Int} (h : x ∈ insertSetI l i) :
    x ∈ l ∨ x = i := by
  unfold insertSetI at h
  split at h
  · exact Or.inl h
  · rcases List.mem_append.mp h with hm | hm
    · exact Or.inl hm
    · exact Or.inr (List.mem_singleton.mp hm)

/-- Processing one recovered object only adds non-negative indices. -/
theorem recoverObj_nonneg (st : RecoverSt) (j : Json)
    (h : ∀ x ∈ st.1, 0 ≤ x) : ∀ x ∈ ((recoverObj st j).1).1, 0 ≤ x := by
  cases j with
  | obj kvs =>
    rcases hidx : recoverIndex kvs with _ | idx
    · simp only [recoverObj, hidx]
      exact h
    · rcases hch : recoverChars kvs with _ | cs
      · simp only [recoverObj, hidx, hch]
        by_cases hp : (0 : Int) ≤ idx
        · simp only [if_pos hp]
          intro x hx
          rcases insertSetI_mem hx with hm | rfl
          · exact h x hm
          · exact hp
        · simp only [if_neg hp]
          exact h
      · simp only [recoverObj, hidx, hch]
        by_cases hp : (0 : Int) ≤ idx
        · simp only [if_pos hp]
          intro x hx
          rcases insertSetI_mem hx with hm | rfl
          · exact h x hm
          · exact hp
        · simp only [if_neg hp]
          exact h
  | null => exact h
  | bool b => exact h
  | num n => exact h
  | str s => exact h
  | arr xs => exact h

/-- The whole-array recovery loop only adds non-negative indices. -/
theorem recoverList_nonneg (xs : List Json) :
    ∀ (st : RecoverSt), (∀ x ∈ st.1, 0 ≤ x) →
      ∀ x ∈ ((recoverList xs st).1).1, 0 ≤ x := by
  induction xs with
  | nil => intro st h; exact h
  | cons j rest ih =>
    intro st h
    simp only [recoverList]
    rcases hro : recoverObj st j with ⟨st2, ab⟩
    have h2 : ∀ x ∈ st2.1, 0 ≤ x := by
      have := recoverObj_nonneg st j h
      rw [hro] at this
      exact this
    cases ab with
    | true => simpa using h2
    | false => simpa using ih st2 h2

/-- The fragment scan only adds non-negative indices. -/
theorem scanFrags_nonneg (fs : List String) :
    ∀ (st : RecoverSt), (∀ x ∈ st.1, 0 ≤ x) →
      ∀ x ∈ (scanFrags fs st).1, 0 ≤ x := by
  induction fs with
  | nil => intro st h; exact h
  | cons f rest ih =>
    intro st h
    simp only [scanFrags]
    cases jsonLoads f with
    | none => exact ih st h
    | some v =>
      cases v with
      | obj kvs =>
        simp only
        rcases hro : recoverObj st (Json.obj kvs) with ⟨st2, ab⟩
        have h2 : ∀ x ∈ st2.1, 0 ≤ x := by
          have := recoverObj_nonneg st (Json.obj kvs) h
          rw [hro] at this
          exact this
        cases ab with
        | true => simpa using h2
        | false => simpa using ih st2 h2
      | null => exact h
      | bool b => exact h
      | num n => exact h
      | str s => exact h
      | arr ys => exact h

/-- C5 counterexample.  Truncating `c5content` by two characters makes
the Resume Tracker recover a strictly larger CompletionSet: the intact
content parses as a one-element list whose dict has no top-level
`index` (the only `index` is nested), yielding the empty set, while the
truncation breaks the outer object and exposes the nested
`{"index": 3}` to the fragment scan, yielding `{3}`. -/
theorem c5_counterexample :
    load_existing_output_safe c5content = ([], [])
    ∧ load_existing_output_safe c5trunc = ([3], [])
    ∧ c5trunc ++ String.mk [rbrace] ++ "]" = c5content
    ∧ ¬ ((load_existing_output_safe c5trunc).1.length
          ≤ (load_existing_output_safe c5content).1.length) := by
  exact ⟨by decide, by decide, by decide, by decide⟩

/-- C5 (corrected).  On every store content the Resume Tracker returns
some CompletionSet without raising — the ladder is total, every raised
`TypeError` is caught by the outer handler (the abort paths return the
state gathered so far), and every recovered index is non-negative, so
the result is always a valid CompletionSet.  Monotonicity under
truncation does NOT hold: truncation can expose nested objects to the
fragment scan and strictly enlarge the recovered set (see the
counterexample). -/
theorem c5_total_valid (content : String) :
    ∀ i ∈ (load_existing_output_safe content).1, 0 ≤ i := by
  simp only [load_existing_output_safe]
  split
  · intro i hi; cases hi
  · split
    · rename_i xs _
      exact recoverList_nonneg xs ([], []) (by intro x hx; cases hx)
    · split
      · rename_i xs _
        exact recoverList_nonneg xs ([], []) (by intro x hx; cases hx)
      · exact scanFrags_nonneg _ ([], []) (by intro x hx; cases hx)

/-- C5 witness. -/
theorem c5_witness :
    (3 : Int) ∈ (load_existing_output_safe c5trunc).1 ∧ (0 : Int) ≤ 3 := by
  refine ⟨by decide, ?_⟩
  exact c5_total_valid c5trunc 3 (by decide)

/-- Membership survives a set-insert of a name. -/
theorem insertSet_mono {l : List String} {x c : String} (h : x ∈ l) :
    x ∈ insertSet l c := by
  unfold insertSet
  split
  · exact h
  · exact List.mem_append_left _ h

/-- The inserted name is in the set afterwards. -/
theorem insertSet_self (l : List String) (c : String) : c ∈ insertSet l c := by
  unfold insertSet
  split
  · assumption
  · simp

/-- Every inserted name is in the set after a bulk insert. -/
theorem insertSetAll_mem (cs : List String) :
    ∀ (l : List String) (c : String), c ∈ cs → c ∈ insertSetAll l cs := by
  induction cs with
  | nil => intro l c hc; cases hc
  | cons a rest ih =>
    intro l c hc
    unfold insertSetAll
    simp only [List.foldl_cons]
    rcases List.mem_cons.mp hc with rfl | hm
    · have : c ∈ insertSet l c := insertSet_self l c
      exact foldl_inv (fun b => c ∈ b) insertSet
        (fun b a hb => insertSet_mono hb) rest (insertSet l c) this
    · exact ih (insertSet l a) c hm

/-- A string element of the characters value is collected by the
string-elements fold. -/
theorem strElems_mem (vs : List Json) (s : String) (hs : Json.str s ∈ vs) :
    s ∈ vs.foldl (fun acc c =>
      match c with
      | Json.str s => acc ++ [s]
      | _ => acc) [] := by
  suffices H : ∀ (l : List Json) (acc : List String),
      (Json.str s ∈ l ∨ s ∈ acc) →
      s ∈ l.foldl (fun acc c =>
        match c with
        | Json.str s => acc ++ [s]
        | _ => acc) acc by
    exact H vs [] (Or.inl hs)
  intro l
  induction l with
  | nil =>
    intro acc h
    rcases h with h | h
    · cases h
    · exact h
  | cons c rest ih =>
    intro acc h
    simp only [List.foldl_cons]
    rcases h with h | h
    · rcases List.mem_cons.mp h with he | hm
      · cases c with
        | str t =>
          have ht : t = s := by injection he.symm
          subst ht
          exact ih _ (Or.inr (by simp))
        | null => cases he
        | bool b => cases he
        | num n => cases he
        | arr ys => cases he
        | obj kvs => cases he
      · exact ih _ (Or.inl hm)
    · cases c with
      | str t => exact ih _ (Or.inr (List.mem_append_left _ h))
      | null => exact ih _ (Or.inr h)
      | bool b => exact ih _ (Or.inr h)
      | num n => exact ih _ (Or.inr h)
      | arr ys => exact ih _ (Or.inr h)
      | obj kvs => exact ih _ (Or.inr h)

/-- C10 (confirmed).  When the Resume Tracker processes a recovered
record, every string-typed element of its `characters` list enters the
CharacterContext with no filtering at all — no pronoun check, no length
or capitalisation requirement (the universal part holds for an
arbitrary string `s`); a persisted pronoun such as "he" is recovered
into the context and is the lexicographic minimum the Validator would
use as its point-of-view fallback. -/
theorem c10_context_unfiltered :
    (∀ (st : RecoverSt) (kvs : List (String × Json)) (vs : List Json)
       (s : String) (n : Int),
       jGet kvs "characters" = some (Json.arr vs) → Json.str s ∈ vs →
       recoverIndex kvs = some n →
       s ∈ ((recoverObj st (Json.obj kvs)).1).2)
    ∧ load_existing_output_safe c10demo = ([0], ["he"])
    ∧ pyMin ["he"] = some "he" := by
  refine ⟨?_, by decide, by decide⟩
  intro st kvs vs s n hchars hs hidx
  simp only [recoverObj, hidx, recoverChars, hchars]
  exact insertSetAll_mem _ _ s (strElems_mem vs s hs)

/-- C10 witness. -/
theorem c10_witness :
    (jGet [("index", Json.num 0), ("characters", Json.arr [Json.str "he"])]
        "characters" = some (Json.arr [Json.str "he"])
      ∧ Json.str "he" ∈ [Json.str "he"]
      ∧ recoverIndex [("index", Json.num 0),
          ("characters", Json.arr [Json.str "he"])] = some 0)
    ∧ "he" ∈ ((recoverObj ([], [])
        (Json.obj [("index", Json.num 0),
          ("characters", Json.arr [Json.str "he"])])).1).2 := by
  refine ⟨⟨by rfl, by simp, by rfl⟩, ?_⟩
  exact c10_context_unfiltered.1 ([], [])
    [("index", Json.num 0), ("characters", Json.arr [Json.str "he"])]
    [Json.str "he"] "he" 0 (by rfl) (by simp) (by rfl)

/-- C1 witness. -/
theorem c1_witness :
    ((∀ c ∈ (["Bob"] : List String), pyLower c ∉ PRONOUNS)
    ∧ (⟨0, "i ran", [], [], [("i", "Bob")], "Bob"⟩ : Record)
        ∈ (clean_and_validate [Json.obj [("text", Json.str "i ran")]]
            ["i ran"] 0 ["Bob"]).1
    ∧ ("i", "Bob") ∈ ([("i", "Bob")] : List (String × String)))
    ∧ pyLower "Bob" ∉ PRONOUNS := by
  refine ⟨⟨by decide, by decide, by decide⟩, ?_⟩
  exact c1_coref_values_never_pronoun [Json.obj [("text", Json.str "i ran")]]
    ["i ran"] 0 ["Bob"] (by decide)
    ⟨0, "i ran", [], [], [("i", "Bob")], "Bob"⟩ (by decide) "i" "Bob" (by decide)

end TextProc
